import Mathlib

/-
Shallow embedding of the trac-post-receive-hook git hook
(src/post-receive-trac.py) and verification of its specification.

The hook reads ref updates, lists the new commits of each ref, filters
them against the persistent `git_seen` table, routes each commit message
to one or more Trac tickets (explicit "Refs #NNN" tokens, the
merge-commit convention, or the ref-name fallback), batches messages per
ticket, and posts one comment per batch key.

Modelling notes, keyed to the source:
* Regexes (lines 119, 123, 126) are embedded as executable scanners over
  `List Char` with the exact semantics of `re.search` / `re.findall` on
  those patterns (leftmost match; greedy quantifiers; `\w` is
  alphanumeric or underscore).
* The explicit-refs route (line 231) keys the message dictionary by the
  *string* captured by `findall`, while the merge and fallback routes
  (lines 236-243) key it by *int*.  The key type `TKey` keeps the two
  apart, exactly as a Python dict does; `TKey.toTicket` models the int
  coercion that the tracker applies when a comment is finally posted.
* `remember_commit` (lines 261-268) executes
  `INSERT INTO git_seen (sha1) VALUES (%s)`.  The table is created
  (line 213) as `CREATE TABLE git_seen (sha1 VARCHAR(40))` with no
  uniqueness constraint, so the insert always succeeds and the
  `IntegrityError` handler never fires: the embedding is a plain append.
* `post_to_ticket` (lines 143-171) catches every tracker-side
  `Exception` internally and only logs it, so the outer
  `try/except/else` of `handle_ref` (lines 248-259) always reaches
  `db.commit()` for tracker-side posting failures.  The embedding
  therefore commits the per-ref ledger inserts unconditionally and
  records failed tickets in an error log, mirroring the stderr output.
* The VCS collaborator is external: `handle_ref` receives the rev-list
  output (newest first, line 192) and each commit carries its message.
-/

namespace TracHook

/-- The single-quote character, used by the merge-commit regex literals. -/
def sq : Char := Char.ofNat 39

/-- Python `\w` on an ASCII byte string: alphanumeric or underscore. -/
def isWordChar (c : Char) : Bool := c.isAlphanum || c == '_'

/-- Value of a string of decimal digits, as Python `int()` computes it. -/
def digitsToNat (ds : List Char) : Nat :=
  ds.foldl (fun a c => a * 10 + (c.toNat - 48)) 0

/-- Strip a literal from the front of a character list, or fail.  This is
the building block for matching the literal parts of the hook's regexes. -/
def prefixDrop : List Char → List Char → Option (List Char)
  | [], cs => some cs
  | _ :: _, [] => none
  | a :: ps, c :: cs => if c = a then prefixDrop ps cs else none

/-- Literal `refs/heads/` of the refname regex (src line 119). -/
def headsLit : List Char := ("refs/heads/").data

/-- `ticket_from_ref_re.search(ref)` for `^refs/heads/([0-9]+)` followed by
`int(match.group(1))` (src lines 119-120 and 181-185).  The `^` anchor
makes `search` equivalent to matching at the start of the string; the
greedy `[0-9]+` captures the maximal leading digit run. -/
def ticket_from_ref (ref : String) : Option Nat :=
  match prefixDrop headsLit ref.data with
  | none => none
  | some rest =>
    let ds := rest.takeWhile Char.isDigit
    if ds = [] then none else some (digitsToNat ds)

/-- `tkt_id_from_ref` as computed in `handle_ref` (src lines 183-185):
the ticket parsed from the refname, or the configured default. -/
def tkt_id_from_ref (d : Nat) (ref : String) : Nat :=
  (ticket_from_ref ref).getD d

/-- Literal `Refs #` of the explicit-refs regex (src line 126). -/
def refsLit : List Char := ("Refs #").data

/-- `ticket_from_explicit_refs_re.findall(msg)` for `Refs #([0-9]+)`
(src lines 126 and 229).  `findall` scans left to right and returns the
captured digit strings of all non-overlapping matches.  Because a match
starts with `R` and every later character of a match is one of
`efs #0123456789`, no match can start inside another one, so scanning
every position (advancing one character at a time) finds exactly the
matches that `findall` finds. -/
def findRefsTokens : List Char → List String
  | [] => []
  | c :: cs =>
    (match prefixDrop refsLit (c :: cs) with
     | some rest =>
       let ds := rest.takeWhile Char.isDigit
       if ds = [] then [] else [String.mk ds]
     | none => []) ++ findRefsTokens cs

/-- The captured digit strings of all `Refs #NNN` tokens in a message. -/
def ticket_from_explicit_refs (m : String) : List String :=
  findRefsTokens m.data

/-- Literal `Merge branch '` of the merge regex (src line 123). -/
def mergeLit : List Char := ("Merge branch ").data ++ [sq]

/-- Literal `' into ` of the optional group of the merge regex. -/
def intoLit : List Char := sq :: (" into ").data

/-- One attempt of `Merge branch \'([0-9]+)(?:\w*\' into ([0-9]+))?` at a
fixed position (src line 123).  `([0-9]+)` greedily captures the maximal
digit run; since the optional group can always match empty, the engine
never gives digits back.  Inside the optional group `\w*` must consume
the maximal word-character run, because the following literal starts
with a quote, which is not a word character.  Group 2 is kept as the
captured string, exactly as `match.group(2)` returns it. -/
def mergeHere (cs : List Char) : Option (Nat × Option String) :=
  match prefixDrop mergeLit cs with
  | none => none
  | some rest =>
    let ds := rest.takeWhile Char.isDigit
    if ds = [] then none
    else
      let afterSrc := rest.dropWhile Char.isDigit
      let afterW := afterSrc.dropWhile isWordChar
      some (digitsToNat ds,
        match prefixDrop intoLit afterW with
        | some rest2 =>
          let ds2 := rest2.takeWhile Char.isDigit
          if ds2 = [] then none else some (String.mk ds2)
        | none => none)

/-- `re.search`: the leftmost position where the merge pattern matches. -/
def searchMerge : List Char → Option (Nat × Option String)
  | [] => none
  | c :: cs =>
    match mergeHere (c :: cs) with
    | some r => some r
    | none => searchMerge cs

/-- `ticket_from_msg_re.search(msg)` with `int(match.group(1))` applied to
the source group (src lines 123-124 and 234-237). -/
def ticket_from_msg (m : String) : Option (Nat × Option String) :=
  searchMerge m.data

/-- A key of the `ticket_msgs` dictionary (src line 216).  The explicit
refs route appends under the captured *string* (line 231), while the
merge and refname routes append under an *int* (lines 236-243); a Python
dict keeps `s` and `int(s)` as distinct keys. -/
inductive TKey where
  | str : String → TKey
  | int : Nat → TKey
deriving DecidableEq

/-- The tracker ticket a key resolves to when `post_to_ticket` hands it to
the ticketing backend, which coerces the id with `int()`. -/
def TKey.toTicket : TKey → Nat
  | .str s => digitsToNat s.data
  | .int n => n

/-- `ticket_msgs`: mapping from key to the ordered list of messages
appended for it, in first-insertion order of the keys. -/
abbrev Batch := List (TKey × List String)

/-- `ticket_msgs[k].append(m)` on a `defaultdict(list)` (src line 216). -/
def batchAppend : Batch → TKey → String → Batch
  | [], k, m => [(k, [m])]
  | (k0, ms) :: rest, k, m =>
    if k0 = k then (k0, ms ++ [m]) :: rest
    else (k0, ms) :: batchAppend rest k m

/-- Append one message under each key of a list of keys, in order. -/
def batchAppendAll (b : Batch) (ks : List TKey) (m : String) : Batch :=
  ks.foldl (fun bb k => batchAppend bb k m) b

/-- The keys a single commit message is appended under, in the order the
loop body of `handle_ref` appends them (src lines 228-243): every
explicit `Refs #` capture as a string key; then, if the merge pattern
matches, the int source ticket and (when captured) the int target
ticket; otherwise the int ticket derived from the refname. -/
def route_commit (tktRef : Nat) (msg : String) : List TKey :=
  (ticket_from_explicit_refs msg).map TKey.str ++
    match ticket_from_msg msg with
    | some (src, otgt) =>
      TKey.int src ::
        (match otgt with
         | some t => [TKey.int (digitsToNat t.data)]
         | none => [])
    | none => [TKey.int tktRef]

/-- A commit as the hook sees it: the 40-byte sha1 from `rev-list` and
the message fetched by `get_commit_message`. -/
structure Commit where
  id : String
  msg : String
deriving DecidableEq

/-- The configuration booleans and the default ticket id imported from
`hook_config` (src lines 75-76, 183, 274). -/
structure Config where
  REPOST_SEEN : Bool
  POST_COMMENT : Bool
  DEFAULT_POST_RECEIVE_TKT_ID : Nat

/-- `remember_commit` (src lines 261-268): `INSERT INTO git_seen`.  The
table (created at src line 213) has no uniqueness constraint, so the
insert appends a row unconditionally and the `IntegrityError` handler is
dead code. -/
def remember_commit (led : List String) (c : String) : List String :=
  led ++ [c]

/-- The per-commit loop of `handle_ref` (src lines 218-243), iterating
oldest first: a commit that is already seen is skipped unless
`REPOST_SEEN`; otherwise it is recorded in the ledger and its message is
appended under every key `route_commit` yields. -/
def handleCommits (repost : Bool) (tktRef : Nat) (seen : List String) :
    List Commit → List String → Batch → List String × Batch
  | [], led, b => (led, b)
  | c :: rest, led, b =>
    if c.id ∈ seen ∧ repost = false then
      handleCommits repost tktRef seen rest led b
    else
      handleCommits repost tktRef seen rest (remember_commit led c.id)
        (batchAppendAll b (route_commit tktRef c.msg) c.msg)

/-- `SELECT sha1 FROM git_seen WHERE sha1 IN (pending)` (src lines
203-205): the ledger rows whose sha1 occurs among the pending commits. -/
def refSeen (pending : List Commit) (ledger : List String) : List String :=
  ledger.filter (fun s => decide (s ∈ pending.map Commit.id))

/-- The separator joining the messages of one batch (src line 252). -/
def sepLit : String := "\n----\n"

/-- The posting loop (src lines 249-253): when `POST_COMMENT` is set,
one `post_to_ticket` call per batch key, with the key's messages joined
by the separator; otherwise no calls at all. -/
def refCalls (cfg : Config) (batch : Batch) : List (TKey × String) :=
  if cfg.POST_COMMENT = true then
    batch.map (fun kb => (kb.1, String.intercalate sepLit kb.2))
  else []

/-- The seen-filtered, ledger-recording, batch-building pass of
`handle_ref` over one ref's pending commits (reversed to oldest first,
src line 218). -/
def refRun (cfg : Config) (ref : String) (pending : List Commit)
    (ledger : List String) : List String × Batch :=
  handleCommits cfg.REPOST_SEEN
    (tkt_id_from_ref cfg.DEFAULT_POST_RECEIVE_TKT_ID ref)
    (refSeen pending ledger) pending.reverse ledger []

/-- Result of `handle_ref` for one ref: the `git_seen` rows after the
per-ref transaction, the `post_to_ticket` calls that were made, and the
tickets whose posting failed (logged to stderr by `post_to_ticket`). -/
structure RefResult where
  ledger : List String
  posts : List (TKey × String)
  errors : List TKey

/-- `handle_ref` (src lines 173-259).  `pending` is the `rev-list` output
(newest first); an empty update returns before touching the database
(line 196).  `trackerFails k` says whether posting to key `k` raises a
tracker-side exception inside `post_to_ticket`; such exceptions are
caught there (lines 169-171) and only logged, so the outer `except` of
`handle_ref` (lines 254-257) is not reached and the `else: db.commit()`
(lines 258-259) always commits the ledger inserts. -/
def handle_ref (cfg : Config) (trackerFails : TKey → Bool) (ref : String)
    (pending : List Commit) (ledger : List String) : RefResult :=
  match pending with
  | [] => ⟨ledger, [], []⟩
  | _ :: _ =>
    ⟨(refRun cfg ref pending ledger).1,
     refCalls cfg (refRun cfg ref pending ledger).2,
     ((refCalls cfg (refRun cfg ref pending ledger).2).filter
        (fun kb => trackerFails kb.1)).map Prod.fst⟩

/-! ### Helper lemmas -/

theorem prefixDrop_eq_some {p : List Char} :
    ∀ {cs r : List Char}, prefixDrop p cs = some r ↔ cs = p ++ r := by
  induction p with
  | nil => intro cs r; simp [prefixDrop]
  | cons a ps ih =>
    intro cs r
    cases cs with
    | nil => simp [prefixDrop]
    | cons c cs' =>
      simp only [prefixDrop, List.cons_append]
      by_cases hca : c = a
      · subst hca; simp [ih]
      · simp [hca, Ne.symm hca]

theorem drop_len_append (p r : List Char) : (p ++ r).drop p.length = r := by
  induction p with
  | nil => simp
  | cons a ps ih =>
    simp only [List.cons_append, List.length_cons, List.drop_succ_cons]
    exact ih

theorem mem_keys_batchAppend (b : Batch) (k' : TKey) (m : String) (k : TKey) :
    k ∈ (batchAppend b k' m).map Prod.fst ↔ k ∈ b.map Prod.fst ∨ k = k' := by
  induction b with
  | nil => simp [batchAppend]
  | cons kb rest ih =>
    obtain ⟨k0, ms⟩ := kb
    by_cases hk : k0 = k'
    · subst hk
      simp only [batchAppend, if_true, List.map_cons, List.mem_cons]
      tauto
    · simp only [batchAppend, if_neg hk, List.map_cons, List.mem_cons, ih]
      tauto

theorem mem_keys_batchAppendAll (ks : List TKey) :
    ∀ (b : Batch) (m : String) (k : TKey),
      k ∈ (batchAppendAll b ks m).map Prod.fst ↔ k ∈ b.map Prod.fst ∨ k ∈ ks := by
  induction ks with
  | nil => intro b m k; simp [batchAppendAll]
  | cons k' ks' ih =>
    intro b m k
    have hstep : batchAppendAll b (k' :: ks') m
        = batchAppendAll (batchAppend b k' m) ks' m := rfl
    rw [hstep, ih, mem_keys_batchAppend]
    simp only [List.mem_cons]
    tauto

theorem exists_mem_of_key (b : Batch) (k : TKey)
    (h : k ∈ b.map Prod.fst) : ∃ ms, (k, ms) ∈ b := by
  obtain ⟨⟨k0, ms⟩, hmem, hfst⟩ := List.mem_map.mp h
  cases hfst
  exact ⟨ms, hmem⟩

theorem handleCommits_all_skip (repost : Bool) (tktRef : Nat) (seen : List String) :
    ∀ (commits : List Commit) (led : List String) (b : Batch),
      (∀ c ∈ commits, c.id ∈ seen ∧ repost = false) →
      handleCommits repost tktRef seen commits led b = (led, b) := by
  intro commits
  induction commits with
  | nil => intro led b _; rfl
  | cons c rest ih =>
    intro led b h
    simp only [handleCommits, if_pos (h c (List.mem_cons_self _ _))]
    exact ih _ _ (fun c' hc' => h c' (List.mem_cons_of_mem _ hc'))

theorem handleCommits_no_skip (repost : Bool) (tktRef : Nat) (seen : List String) :
    ∀ (commits : List Commit) (led : List String) (b : Batch),
      (∀ c ∈ commits, ¬(c.id ∈ seen ∧ repost = false)) →
      handleCommits repost tktRef seen commits led b
        = (led ++ commits.map Commit.id,
           commits.foldl
             (fun bb c => batchAppendAll bb (route_commit tktRef c.msg) c.msg) b) := by
  intro commits
  induction commits with
  | nil => intro led b _; simp [handleCommits]
  | cons c rest ih =>
    intro led b h
    simp only [handleCommits, if_neg (h c (List.mem_cons_self _ _))]
    rw [ih _ _ (fun c' hc' => h c' (List.mem_cons_of_mem _ hc'))]
    simp [remember_commit, List.append_assoc]

theorem handleCommits_fst_mono (repost : Bool) (tktRef : Nat) (seen : List String) :
    ∀ (commits : List Commit) (led : List String) (b : Batch) (x : String),
      x ∈ led → x ∈ (handleCommits repost tktRef seen commits led b).1 := by
  intro commits
  induction commits with
  | nil => intro led b x hx; exact hx
  | cons c rest ih =>
    intro led b x hx
    simp only [handleCommits]
    split
    · exact ih _ _ _ hx
    · exact ih _ _ _ (List.mem_append.mpr (Or.inl hx))

theorem handleCommits_ids_mem (repost : Bool) (tktRef : Nat) (seen : List String) :
    ∀ (commits : List Commit) (led : List String) (b : Batch),
      (∀ s ∈ seen, s ∈ led) →
      ∀ c ∈ commits, c.id ∈ (handleCommits repost tktRef seen commits led b).1 := by
  intro commits
  induction commits with
  | nil => intro led b _ c hc; cases hc
  | cons c0 rest ih =>
    intro led b hsub c hc
    simp only [handleCommits]
    split
    case isTrue hcond =>
      rcases List.mem_cons.mp hc with rfl | hmem
      · exact handleCommits_fst_mono _ _ _ _ _ _ _ (hsub _ hcond.1)
      · exact ih _ _ hsub _ hmem
    case isFalse hcond =>
      rcases List.mem_cons.mp hc with rfl | hmem
      · exact handleCommits_fst_mono _ _ _ _ _ _ _
          (List.mem_append.mpr (Or.inr (List.mem_singleton.mpr rfl)))
      · exact ih _ _ (fun s hs => List.mem_append.mpr (Or.inl (hsub s hs))) _ hmem

theorem handleCommits_fst_append (repost : Bool) (tktRef : Nat) (seen : List String) :
    ∀ (commits : List Commit) (led : List String) (b : Batch),
      ∃ ins, (handleCommits repost tktRef seen commits led b).1 = led ++ ins := by
  intro commits
  induction commits with
  | nil => intro led b; exact ⟨[], by simp [handleCommits]⟩
  | cons c rest ih =>
    intro led b
    simp only [handleCommits]
    split
    · exact ih _ _
    · obtain ⟨ins, hins⟩ := ih (remember_commit led c.id) (batchAppendAll b _ _)
      exact ⟨c.id :: ins, by rw [hins]; simp [remember_commit]⟩

theorem handleCommits_batch_congr (repost : Bool) (tktRef : Nat)
    (seen seen' : List String) (hs : ∀ a, a ∈ seen ↔ a ∈ seen') :
    ∀ (commits : List Commit) (led led' : List String) (b : Batch),
      (handleCommits repost tktRef seen commits led b).2
        = (handleCommits repost tktRef seen' commits led' b).2 := by
  intro commits
  induction commits with
  | nil => intro led led' b; rfl
  | cons c rest ih =>
    intro led led' b
    by_cases hc : c.id ∈ seen ∧ repost = false
    · have hc' : c.id ∈ seen' ∧ repost = false := ⟨(hs _).mp hc.1, hc.2⟩
      simp only [handleCommits]
      rw [if_pos hc, if_pos hc']
      exact ih _ _ _
    · have hc' : ¬(c.id ∈ seen' ∧ repost = false) :=
        fun hcon => hc ⟨(hs _).mpr hcon.1, hcon.2⟩
      simp only [handleCommits]
      rw [if_neg hc, if_neg hc']
      exact ih _ _ _

theorem foldl_batchAppend_single (tktRef : Nat) (k : TKey) :
    ∀ (commits : List Commit) (ms : List String),
      (∀ c ∈ commits, route_commit tktRef c.msg = [k]) →
      commits.foldl
          (fun bb c => batchAppendAll bb (route_commit tktRef c.msg) c.msg)
          [(k, ms)]
        = [(k, ms ++ commits.map Commit.msg)] := by
  intro commits
  induction commits with
  | nil => intro ms _; simp
  | cons c rest ih =>
    intro ms h
    have hc := h c (List.mem_cons_self _ _)
    simp only [List.foldl_cons, hc]
    have hone : batchAppendAll [(k, ms)] [k] c.msg = [(k, ms ++ [c.msg])] := by
      simp [batchAppendAll, batchAppend]
    rw [hone, ih _ (fun c' hc' => h c' (List.mem_cons_of_mem _ hc'))]
    simp

theorem foldl_batchAppend_single_from_nil (tktRef : Nat) (k : TKey)
    (c0 : Commit) (rest : List Commit)
    (h : ∀ c ∈ c0 :: rest, route_commit tktRef c.msg = [k]) :
    (c0 :: rest).foldl
        (fun bb c => batchAppendAll bb (route_commit tktRef c.msg) c.msg) []
      = [(k, (c0 :: rest).map Commit.msg)] := by
  have hc0 := h c0 (List.mem_cons_self _ _)
  simp only [List.foldl_cons, hc0]
  have hone : batchAppendAll ([] : Batch) [k] c0.msg = [(k, [c0.msg])] := by
    simp [batchAppendAll, batchAppend]
  rw [hone, foldl_batchAppend_single tktRef k rest [c0.msg]
    (fun c hc => h c (List.mem_cons_of_mem _ hc))]
  simp

/-- If every pending commit is already recorded in the ledger and
reposting is off, a run makes no `post_to_ticket` call at all. -/
theorem posts_nil_of_seen (cfg : Config) (fails : TKey → Bool) (ref : String)
    (pending : List Commit) (ledger : List String)
    (hrep : cfg.REPOST_SEEN = false)
    (hall : ∀ c ∈ pending, c.id ∈ ledger) :
    (handle_ref cfg fails ref pending ledger).posts = [] := by
  cases pending with
  | nil => rfl
  | cons p0 ps =>
    have hallskip : ∀ c ∈ (p0 :: ps).reverse,
        c.id ∈ refSeen (p0 :: ps) ledger ∧ cfg.REPOST_SEEN = false := by
      intro c hc
      have hcp : c ∈ p0 :: ps := List.mem_reverse.mp hc
      refine ⟨?_, hrep⟩
      simp only [refSeen, List.mem_filter, decide_eq_true_eq]
      exact ⟨hall c hcp, List.mem_map_of_mem _ hcp⟩
    have hbatch : (refRun cfg ref (p0 :: ps) ledger).2 = [] := by
      unfold refRun
      rw [handleCommits_all_skip _ _ _ _ _ _ hallskip]
    show refCalls cfg (refRun cfg ref (p0 :: ps) ledger).2 = []
    rw [hbatch]
    simp [refCalls]

/-- After a run, every pending commit's id is in the resulting ledger:
already-seen ids were in the ledger and the ledger only grows, and fresh
ids are inserted by `remember_commit`. -/
theorem pending_ids_in_ledger (cfg : Config) (fails : TKey → Bool) (ref : String)
    (pending : List Commit) (ledger : List String) :
    ∀ c ∈ pending, c.id ∈ (handle_ref cfg fails ref pending ledger).ledger := by
  cases pending with
  | nil => intro c hc; cases hc
  | cons p0 ps =>
    intro c hc
    show c.id ∈ (refRun cfg ref (p0 :: ps) ledger).1
    unfold refRun
    apply handleCommits_ids_mem
    · intro s hs
      exact (List.mem_filter.mp hs).1
    · exact List.mem_reverse.mpr hc

/-! ### Claim-side predicates and concrete inputs -/

/-- `Merge branch '501_foo' into 600_bar` (built without quote characters
in string literals). -/
def mergeMsgBoth : String :=
  String.mk (("Merge branch ").data ++ sq :: ("501_foo").data
    ++ sq :: (" into 600_bar").data)

/-- `Merge branch '501_foo'` with no into-clause. -/
def mergeMsgSrc : String :=
  String.mk (("Merge branch ").data ++ sq :: ("501_foo").data ++ [sq])

/-- `Merge branch '501-x' into 600_bar`: hyphen in the source branch. -/
def mergeMsgHyphen : String :=
  String.mk (("Merge branch ").data ++ sq :: ("501-x").data
    ++ sq :: (" into 600_bar").data)

/-- Follows the claim C5's words: an `into <digits>` clause is present —
the message contains a closing quote followed by ` into ` and a digit. -/
def hasIntoDigits : List Char → Bool
  | [] => false
  | c :: cs =>
    (match prefixDrop intoLit (c :: cs) with
     | some (d :: _) => d.isDigit
     | _ => false) || hasIntoDigits cs

/-- Follows the claim C7's words: the ref name starts with the branch
root `refs/heads/` and the branch name begins with a digit. -/
def refMatchesTicketPattern (ref : String) : Bool :=
  match prefixDrop headsLit ref.data with
  | some (c :: _) => c.isDigit
  | _ => false

/-- For a single-commit ref update with posting enabled, every key that
`route_commit` yields for the commit receives a poster call. -/
theorem key_posted_single (cfg : Config) (fails : TKey → Bool) (ref : String)
    (c : Commit) (ledger : List String) (k : TKey)
    (hunseen : c.id ∉ ledger)
    (hpc : cfg.POST_COMMENT = true)
    (hkey : k ∈ route_commit (tkt_id_from_ref cfg.DEFAULT_POST_RECEIVE_TKT_ID ref) c.msg) :
    ∃ body, (k, body) ∈ (handle_ref cfg fails ref [c] ledger).posts := by
  have hns : ∀ c' ∈ ([c] : List Commit),
      ¬(c'.id ∈ refSeen [c] ledger ∧ cfg.REPOST_SEEN = false) := by
    intro c' hc' hcon
    have hc'' : c' = c := by simpa using hc'
    subst hc''
    have h1 := hcon.1
    simp only [refSeen] at h1
    exact hunseen (List.mem_filter.mp h1).1
  have hrun : refRun cfg ref [c] ledger
      = (ledger ++ [c.id],
         batchAppendAll []
           (route_commit (tkt_id_from_ref cfg.DEFAULT_POST_RECEIVE_TKT_ID ref) c.msg)
           c.msg) := by
    unfold refRun
    simp only [List.reverse_singleton]
    rw [handleCommits_no_skip _ _ _ _ _ _ hns]
    simp
  have hkeys : k ∈
      (batchAppendAll []
        (route_commit (tkt_id_from_ref cfg.DEFAULT_POST_RECEIVE_TKT_ID ref) c.msg)
        c.msg).map Prod.fst := by
    rw [mem_keys_batchAppendAll]
    exact Or.inr hkey
  obtain ⟨ms, hms⟩ := exists_mem_of_key _ _ hkeys
  refine ⟨String.intercalate sepLit ms, ?_⟩
  show (k, String.intercalate sepLit ms) ∈ refCalls cfg (refRun cfg ref [c] ledger).2
  rw [hrun]
  dsimp only
  simp only [refCalls, hpc, if_true]
  exact List.mem_map_of_mem _ hms

/-! ### Claim theorems -/

/-- C5 counterexample: `Merge branch '501-x' into 600_bar` matches the
merge convention (source ticket 501) and an `into <digits>` clause with
numeric prefix 600 is textually present, yet ticket 600 is not routed:
the regex's optional group requires the source branch remainder to be
word characters, and the hyphen blocks it. -/
theorem C5_counterexample :
    ticket_from_msg mergeMsgHyphen = some (501, none) ∧
      hasIntoDigits mergeMsgHyphen.data = true ∧
      TKey.int 600 ∉ route_commit 9 mergeMsgHyphen := by
  refine ⟨rfl, rfl, ?_⟩
  decide

/-- C5 (amended): whenever the merge pattern matches, the captured source
ticket is routed; the target ticket is routed exactly when the regex's
optional group captures it, which requires the quoted source branch
remainder to be word characters immediately followed by `' into <digits>`.
The claim's two concrete examples hold: `Merge branch '501_foo' into
600_bar` routes to 501 and 600, and `Merge branch '501_foo'` only to 501. -/
theorem C5_merge_routing :
    (∀ (k : Nat) (m : String) (src : Nat) (otgt : Option String),
        ticket_from_msg m = some (src, otgt) → TKey.int src ∈ route_commit k m) ∧
      (∀ k : Nat, route_commit k mergeMsgBoth = [TKey.int 501, TKey.int 600]) ∧
      (∀ k : Nat, route_commit k mergeMsgSrc = [TKey.int 501]) := by
  refine ⟨?_, ?_, ?_⟩
  · intro k m src otgt h
    simp only [route_commit, h]
    exact List.mem_append.mpr (Or.inr (List.mem_cons_self _ _))
  · intro k; rfl
  · intro k; rfl

/-- C5 witness at a concrete input: the source ticket of
`Merge branch '501_foo'` is routed. -/
theorem C5_witness : TKey.int 501 ∈ route_commit 9 mergeMsgSrc :=
  C5_merge_routing.1 9 mergeMsgSrc 501 none rfl

/-- C6: every `Refs #<digits>` capture in a commit message routes the
message under that ticket's batch key, whatever the ref name is, and the
key resolves to the ticket numbered by the captured digits. -/
theorem C6_explicit_refs_always_route (d : Nat) (ref msg : String) (t : String)
    (h : t ∈ ticket_from_explicit_refs msg) :
    TKey.str t ∈ route_commit (tkt_id_from_ref d ref) msg ∧
      TKey.toTicket (TKey.str t) = digitsToNat t.data := by
  refine ⟨?_, rfl⟩
  simp only [route_commit]
  exact List.mem_append.mpr (Or.inl (List.mem_map_of_mem _ h))

/-- C6 witness: `Refs #42` routes to the key of ticket 42 even on
`refs/heads/master`. -/
theorem C6_witness :
    TKey.str ("42") ∈ route_commit (tkt_id_from_ref 1 ("refs/heads/master")) ("Refs #42") :=
  (C6_explicit_refs_always_route 1 ("refs/heads/master") ("Refs #42") ("42") (by decide)).1

/-- C7: if the ref name matches the ticket-branch pattern, the fallback
ticket id is the value of the leading digits of the branch name;
otherwise it is the configured default. -/
theorem C7_fallback_from_refname (d : Nat) (ref : String) :
    (refMatchesTicketPattern ref = true →
        tkt_id_from_ref d ref
          = digitsToNat ((ref.data.drop 11).takeWhile Char.isDigit)) ∧
      (refMatchesTicketPattern ref = false → tkt_id_from_ref d ref = d) := by
  constructor
  · intro hm
    unfold refMatchesTicketPattern at hm
    cases hp : prefixDrop headsLit ref.data with
    | none => rw [hp] at hm; cases hm
    | some rest =>
      rw [hp] at hm
      cases rest with
      | nil => exact absurd hm (by decide)
      | cons c0 cs0 =>
        have hdig : c0.isDigit = true := hm
        have hsplit : ref.data = headsLit ++ (c0 :: cs0) := prefixDrop_eq_some.mp hp
        have hdrop : ref.data.drop 11 = c0 :: cs0 := by
          rw [hsplit]
          have hlen : headsLit.length = 11 := rfl
          rw [← hlen]
          exact drop_len_append headsLit (c0 :: cs0)
        unfold tkt_id_from_ref ticket_from_ref
        rw [hp, hdrop]
        have hne : (c0 :: cs0).takeWhile Char.isDigit ≠ [] := by
          simp [List.takeWhile_cons, hdig]
        simp [hne]
  · intro hm
    unfold refMatchesTicketPattern at hm
    unfold tkt_id_from_ref ticket_from_ref
    cases hp : prefixDrop headsLit ref.data with
    | none => rfl
    | some rest =>
      rw [hp] at hm
      cases rest with
      | nil => simp
      | cons c0 cs0 =>
        have hdig : c0.isDigit = false := by simpa using hm
        simp [List.takeWhile_cons, hdig]

/-- C7 witness: branch `5150-fix` yields ticket 5150; `master` yields
the default. -/
theorem C7_witness :
    tkt_id_from_ref 99 ("refs/heads/5150-fix") = 5150 ∧
      tkt_id_from_ref 99 ("refs/heads/master") = 99 := by
  constructor
  · have h := (C7_fallback_from_refname 99 ("refs/heads/5150-fix")).1 (by decide)
    rw [h]
    decide
  · exact (C7_fallback_from_refname 99 ("refs/heads/master")).2 (by decide)

/-- C1 counterexample: with ref `refs/heads/7_fix` and one unseen commit
whose message is `Refs #42` — an explicit token present and no merge
match — the fallback route is still applied: the poster is called on the
int key of ticket 7 with the message. -/
theorem C1_counterexample :
    ticket_from_explicit_refs ("Refs #42") ≠ [] ∧
      ticket_from_msg ("Refs #42") = none ∧
      (TKey.int 7, ("Refs #42" : String)) ∈
        (handle_ref (Config.mk false true 1) (fun _ => false) ("refs/heads/7_fix")
          [Commit.mk ("c0") ("Refs #42")] []).posts := by
  refine ⟨by decide, rfl, by decide⟩

/-- C1 (amended): the fallback is suppressed only by a merge-pattern
match, not by explicit `Refs #` tokens.  For a single unseen commit with
no merge match and posting enabled, the ticket derived from the ref name
(or the default) receives a poster call, and so does every explicitly
referenced ticket. -/
theorem C1_fallback_not_suppressed (cfg : Config) (fails : TKey → Bool)
    (ref : String) (c : Commit) (ledger : List String)
    (hmerge : ticket_from_msg c.msg = none)
    (hunseen : c.id ∉ ledger)
    (hpc : cfg.POST_COMMENT = true) :
    (∃ body, (TKey.int (tkt_id_from_ref cfg.DEFAULT_POST_RECEIVE_TKT_ID ref), body) ∈
        (handle_ref cfg fails ref [c] ledger).posts) ∧
      (∀ t ∈ ticket_from_explicit_refs c.msg,
        ∃ body, (TKey.str t, body) ∈ (handle_ref cfg fails ref [c] ledger).posts) := by
  constructor
  · apply key_posted_single cfg fails ref c ledger _ hunseen hpc
    simp only [route_commit, hmerge]
    exact List.mem_append.mpr (Or.inr (List.mem_singleton.mpr rfl))
  · intro t ht
    apply key_posted_single cfg fails ref c ledger _ hunseen hpc
    simp only [route_commit]
    exact List.mem_append.mpr (Or.inl (List.mem_map_of_mem _ ht))

/-- C1 witness: the amended behaviour at the counterexample input — the
fallback key of ticket 7 is posted although the message carries an
explicit `Refs #42`. -/
theorem C1_witness :
    ∃ body, (TKey.int (tkt_id_from_ref 1 ("refs/heads/7_fix")), body) ∈
      (handle_ref (Config.mk false true 1) (fun _ => false) ("refs/heads/7_fix")
        [Commit.mk ("c0") ("Refs #42")] []).posts :=
  (C1_fallback_not_suppressed (Config.mk false true 1) (fun _ => false)
    ("refs/heads/7_fix") (Commit.mk ("c0") ("Refs #42")) [] rfl (by decide) rfl).1

/-- C2: evaluating the hook on ref `refs/heads/42_fix` with one unseen
commit whose message is `Refs #42` produces two poster calls that both
resolve to ticket 42 — one under the string key written by the
explicit-refs route, one under the int key written by the refname
fallback — contradicting one-comment-per-ticket-per-push. -/
theorem C2_eval_double_post :
    ((handle_ref (Config.mk false true 99) (fun _ => false) ("refs/heads/42_fix")
        [Commit.mk ("c1sha") ("Refs #42")] []).posts.map
      (fun p => TKey.toTicket p.1)) = [42, 42] := by
  decide

/-- C3 counterexample: every post of the run fails with a tracker-side
error, the error is logged for ticket 7, and yet the commit is recorded
in the ledger — the per-ref inserts are committed, not rolled back. -/
theorem C3_counterexample :
    (handle_ref (Config.mk false true 1) (fun _ => true) ("refs/heads/7_x")
        [Commit.mk ("deadbeef") ("fix it")] []).errors = [TKey.int 7] ∧
      (handle_ref (Config.mk false true 1) (fun _ => true) ("refs/heads/7_x")
        [Commit.mk ("deadbeef") ("fix it")] []).ledger = [("deadbeef")] := by
  exact ⟨by decide, by decide⟩

/-- C3 (amended): a tracker-side posting failure is caught inside the
poster and only logged: the ledger contents and the calls made are
independent of which posts fail — so other tickets still get their
posts and no rollback of the ref's ledger inserts occurs — and the error
log is exactly the failing subset of the calls, keyed by ticket. -/
theorem C3_failure_isolated_no_rollback (cfg : Config) (fails fails' : TKey → Bool)
    (ref : String) (pending : List Commit) (ledger : List String) :
    (handle_ref cfg fails ref pending ledger).ledger
        = (handle_ref cfg fails' ref pending ledger).ledger ∧
      (handle_ref cfg fails ref pending ledger).posts
        = (handle_ref cfg fails' ref pending ledger).posts ∧
      (handle_ref cfg fails ref pending ledger).errors
        = ((handle_ref cfg fails ref pending ledger).posts.filter
            (fun kb => fails kb.1)).map Prod.fst := by
  cases pending with
  | nil => exact ⟨rfl, rfl, rfl⟩
  | cons p0 ps => exact ⟨rfl, rfl, rfl⟩

/-- C3 witness: failing and succeeding runs leave the same ledger. -/
theorem C3_witness :
    (handle_ref (Config.mk false true 1) (fun _ => true) ("refs/heads/7_x")
        [Commit.mk ("dead") ("fix A")] []).ledger
      = (handle_ref (Config.mk false true 1) (fun _ => false) ("refs/heads/7_x")
        [Commit.mk ("dead") ("fix A")] []).ledger :=
  (C3_failure_isolated_no_rollback (Config.mk false true 1) (fun _ => true)
    (fun _ => false) ("refs/heads/7_x") [Commit.mk ("dead") ("fix A")] []).1

/-- C4 counterexample: a `REPOST_SEEN` run over a commit that is already
in the ledger records it again — the ledger ends with two entries for
one identifier, because `git_seen` has no uniqueness constraint. -/
theorem C4_counterexample :
    (handle_ref (Config.mk true false 1) (fun _ => false) ("refs/heads/master")
        [Commit.mk ("abcd") ("note")] [("abcd")]).ledger
      = [("abcd"), ("abcd")] := by
  decide

/-- C4 (amended): the ledger insert appends unconditionally (the table
has no uniqueness constraint, so duplicate rows accumulate and no
`IntegrityError` is raised), but duplicates are harmless: seen-filtering
is by membership, so ledgers agreeing on membership produce identical
poster calls, and a run only ever appends to the ledger. -/
theorem C4_duplicates_harmless (cfg : Config) (fails : TKey → Bool) (ref : String)
    (pending : List Commit) (ledger ledger' : List String)
    (h : ∀ s : String, s ∈ ledger ↔ s ∈ ledger') :
    (handle_ref cfg fails ref pending ledger).posts
        = (handle_ref cfg fails ref pending ledger').posts ∧
      ∃ ins, (handle_ref cfg fails ref pending ledger).ledger = ledger ++ ins := by
  cases pending with
  | nil => exact ⟨rfl, ⟨[], by simp [handle_ref]⟩⟩
  | cons p0 ps =>
    constructor
    · show refCalls cfg (refRun cfg ref (p0 :: ps) ledger).2
          = refCalls cfg (refRun cfg ref (p0 :: ps) ledger').2
      have hb : (refRun cfg ref (p0 :: ps) ledger).2
          = (refRun cfg ref (p0 :: ps) ledger').2 := by
        unfold refRun
        apply handleCommits_batch_congr
        intro a
        simp only [refSeen, List.mem_filter, decide_eq_true_eq]
        constructor
        · rintro ⟨h1, h2⟩; exact ⟨(h a).mp h1, h2⟩
        · rintro ⟨h1, h2⟩; exact ⟨(h a).mpr h1, h2⟩
      rw [hb]
    · show ∃ ins, (refRun cfg ref (p0 :: ps) ledger).1 = ledger ++ ins
      unfold refRun
      exact handleCommits_fst_append _ _ _ _ _ _

/-- C4 witness: a duplicate ledger row does not change the posts. -/
theorem C4_witness :
    (handle_ref (Config.mk false true 3) (fun _ => false) ("refs/heads/9_z")
        [Commit.mk ("s1x") ("hello")] [("qq"), ("qq")]).posts
      = (handle_ref (Config.mk false true 3) (fun _ => false) ("refs/heads/9_z")
        [Commit.mk ("s1x") ("hello")] [("qq")]).posts :=
  (C4_duplicates_harmless (Config.mk false true 3) (fun _ => false) ("refs/heads/9_z")
      [Commit.mk ("s1x") ("hello")] [("qq"), ("qq")] [("qq")]
      (by intro s; simp [List.mem_cons])).1

/-- C8: when every commit of a nonempty ref update is unseen and routes
to exactly the single key `k`, the run makes one poster call, on `k`,
whose body joins the messages oldest-first with the `----` separator. -/
theorem C8_joined_in_order (cfg : Config) (fails : TKey → Bool) (ref : String)
    (ledger : List String) (pending : List Commit) (k : TKey)
    (hne : pending ≠ [])
    (hunseen : ∀ c ∈ pending, c.id ∉ ledger)
    (hroute : ∀ c ∈ pending,
      route_commit (tkt_id_from_ref cfg.DEFAULT_POST_RECEIVE_TKT_ID ref) c.msg = [k])
    (hpc : cfg.POST_COMMENT = true) :
    (handle_ref cfg fails ref pending ledger).posts
      = [(k, String.intercalate sepLit (pending.reverse.map Commit.msg))] := by
  cases pending with
  | nil => exact absurd rfl hne
  | cons p0 ps =>
    have hns : ∀ c ∈ (p0 :: ps).reverse,
        ¬(c.id ∈ refSeen (p0 :: ps) ledger ∧ cfg.REPOST_SEEN = false) := by
      intro c hc hcon
      have h1 := hcon.1
      simp only [refSeen] at h1
      exact hunseen c (List.mem_reverse.mp hc) (List.mem_filter.mp h1).1
    have hrev : ∀ c ∈ (p0 :: ps).reverse,
        route_commit (tkt_id_from_ref cfg.DEFAULT_POST_RECEIVE_TKT_ID ref) c.msg = [k] :=
      fun c hc => hroute c (List.mem_reverse.mp hc)
    have hbatch : (refRun cfg ref (p0 :: ps) ledger).2
        = [(k, (p0 :: ps).reverse.map Commit.msg)] := by
      unfold refRun
      rw [handleCommits_no_skip _ _ _ _ _ _ hns]
      dsimp only
      cases hrv : (p0 :: ps).reverse with
      | nil => exact absurd hrv (by simp)
      | cons q qs =>
        rw [hrv] at hrev
        exact foldl_batchAppend_single_from_nil _ _ _ _ hrev
    show refCalls cfg (refRun cfg ref (p0 :: ps) ledger).2 = _
    rw [hbatch]
    simp [refCalls, hpc]

/-- Three commits, newest first, as `rev-list` would deliver them. -/
def pendThree : List Commit :=
  [Commit.mk ("s3") ("three"), Commit.mk ("s2") ("two"), Commit.mk ("s1") ("one")]

/-- C8 witness: three commits on `refs/heads/42_x` post as one comment
to ticket 42, oldest first. -/
theorem C8_witness :
    (handle_ref (Config.mk false true 7) (fun _ => false) ("refs/heads/42_x")
        pendThree []).posts
      = [(TKey.int 42, String.intercalate sepLit (pendThree.reverse.map Commit.msg))] :=
  C8_joined_in_order (Config.mk false true 7) (fun _ => false) ("refs/heads/42_x")
    [] pendThree (TKey.int 42) (by decide) (by decide) (by decide) rfl

/-- C9: with `REPOST_SEEN` off, running the hook again on identical
input after a committed first run posts nothing: every commit the first
run recorded is skipped entirely by the second run. -/
theorem C9_second_run_posts_nothing (cfg : Config) (fails : TKey → Bool)
    (ref : String) (pending : List Commit) (ledger : List String)
    (h : cfg.REPOST_SEEN = false) :
    (handle_ref cfg fails ref pending
        ((handle_ref cfg fails ref pending ledger).ledger)).posts = [] :=
  posts_nil_of_seen cfg fails ref pending _ h
    (pending_ids_in_ledger cfg fails ref pending ledger)

/-- C9 witness at a concrete push repeated twice. -/
theorem C9_witness :
    (handle_ref (Config.mk false true 2) (fun _ => false) ("refs/heads/3_y")
        [Commit.mk ("w9") ("note w9")]
        ((handle_ref (Config.mk false true 2) (fun _ => false) ("refs/heads/3_y")
            [Commit.mk ("w9") ("note w9")] []).ledger)).posts = [] :=
  C9_second_run_posts_nothing (Config.mk false true 2) (fun _ => false)
    ("refs/heads/3_y") [Commit.mk ("w9") ("note w9")] [] rfl

/-- C10: with posting disabled, a completed run makes no poster call but
leaves exactly the ledger a posting run would leave; consequently a
later posting run with `REPOST_SEEN` off posts none of those commits. -/
theorem C10_post_comment_off (cfg : Config) (fails fails' : TKey → Bool)
    (ref : String) (pending : List Commit) (ledger : List String)
    (h : cfg.POST_COMMENT = false) :
    (handle_ref cfg fails ref pending ledger).posts = [] ∧
      (handle_ref cfg fails ref pending ledger).ledger =
        (handle_ref (Config.mk cfg.REPOST_SEEN true cfg.DEFAULT_POST_RECEIVE_TKT_ID)
          fails' ref pending ledger).ledger ∧
      (handle_ref (Config.mk false true cfg.DEFAULT_POST_RECEIVE_TKT_ID) fails' ref
          pending ((handle_ref cfg fails ref pending ledger).ledger)).posts = [] := by
  refine ⟨?_, ?_, ?_⟩
  · cases pending with
    | nil => rfl
    | cons p0 ps =>
      show refCalls cfg (refRun cfg ref (p0 :: ps) ledger).2 = []
      simp [refCalls, h]
  · cases pending with
    | nil => rfl
    | cons p0 ps => rfl
  · exact posts_nil_of_seen _ _ _ _ _ rfl
      (pending_ids_in_ledger cfg fails ref pending ledger)

/-- C10 witness: a silent run posts nothing. -/
theorem C10_witness :
    (handle_ref (Config.mk false false 5) (fun _ => false) ("refs/heads/8_w")
        [Commit.mk ("w10") ("note w10")] []).posts = [] :=
  (C10_post_comment_off (Config.mk false false 5) (fun _ => false) (fun _ => false)
    ("refs/heads/8_w") [Commit.mk ("w10") ("note w10")] [] rfl).1

end TracHook
